import Mathlib

/-!
Shallow embedding of the editable-object history and durable-state subsystem
of the 3d-rendering-tool repository (`src/components/CanvasViewer.js`).

The repository file bundles several revisions of the `CanvasViewer` component,
separated by related-doc markers.  The definitions below embed the revision
that the claims cite by line number: the one that defines `MAX_HISTORY = 20`
and history entries of the form `{ meshName, material }` (file lines 514-1264),
plus the `loadFromIndexedDB` effect of the last revision (file lines
1432-1463), which is cited for the restoration coordinator.

Modelling conventions:
* Machine floats (`roughness`, `metalness`) are modelled as rationals; the
  only operations the code performs on them are copying and the JS
  `x || 0.5` default, which tests `x` against `0` (and `NaN`/absence, which
  the model excludes since `MeshStandardMaterial` always carries numbers).
* Textures are modelled by the encoded `dataURL` payload that
  `getTextureDataUrl` produces from a texture's backing image.  The model is
  "settled": between two history operations every pending
  `TextureLoader.load` has completed, so a bound texture always has a decoded
  image that re-encodes to its payload.  (Decode timing is real-time
  behaviour outside the embedding.)
* A mesh always carries a material (true of every `THREE.Mesh`), so the
  `!mesh.material` guard of `pushUndo` can never fire in the model; the
  `!mesh` guard is modelled with `Option Mesh`.
* JS string truthiness (`if (saved.textureDataURL)`) is modelled by
  `truthyStr`: an absent value and the empty string are falsy.
-/

namespace RenderTool

/-- A material bundle as the code reads and writes it: 24-bit RGB colour,
roughness and metalness, and an optionally bound texture represented by its
encoded `dataURL` payload. -/
structure Material where
  color : Nat
  roughness : ℚ
  metalness : ℚ
  map : Option String
deriving DecidableEq

/-- A mesh of the live scene graph: its (stable) `name`, its per-load
`uuid`, and its mutable material slot. -/
structure Mesh where
  name : String
  uuid : String
  material : Material
deriving DecidableEq

/-- The live scene graph, flattened in traversal order.  `getObjectByName`
and `getObjectByProperty` return the first node the traversal finds. -/
abbrev Scene := List Mesh

/-- `scene.getObjectByName(n)`: first mesh whose `name` equals `n`. -/
def getObjectByName (sc : Scene) (n : String) : Option Mesh :=
  sc.find? (fun m => m.name == n)

/-- `scene.getObjectByProperty('uuid', u)`: first mesh whose `uuid` is `u`. -/
def getObjectByUuid (sc : Scene) (u : String) : Option Mesh :=
  sc.find? (fun m => m.uuid == u)

/-- Mutating `mesh.material = mat` on the object that a traversal lookup
found: rewrite the material slot of the first mesh satisfying `p`.  A scene
with no match is returned unchanged. -/
def updateMaterialFirst : Scene → (Mesh → Bool) → (Material → Material) → Scene
  | [], _, _ => []
  | m :: rest, p, f =>
    if p m then { m with material := f m.material } :: rest
    else m :: updateMaterialFirst rest p f

/-- JS string truthiness for an optional string field: `undefined`/`null`
and the empty string are falsy. -/
def truthyStr : Option String → Bool
  | some s => !(s == "")
  | none => false

/-- The float literal `0.5`, as a raw rational (equal to `1 / 2`, see
`half_eq_div`; stated this way so that concrete states evaluate by
`decide`). -/
def half : ℚ :=
  ⟨1, 2, by decide, by decide⟩

/-- The JS default `x || 0.5` applied to a numeric material field: floats
are falsy exactly when they are `0` (or `NaN`, excluded by the model). -/
def orHalf (x : ℚ) : ℚ :=
  if x = 0 then half else x

/-- The serialized material snapshot produced by `serializeMaterial`
(file lines 610-618). -/
structure Snapshot where
  name : String
  uuid : String
  color : Nat
  preset : String
  textureDataURL : Option String
  roughness : ℚ
  metalness : ℚ
deriving DecidableEq, Inhabited

/-- `getTextureDataUrl` on the currently bound texture, in the settled
model: the payload of the bound texture, if any.  Callers guard with
`mesh.material.map && mesh.material.map.image`; in the settled model a bound
texture has a decoded image whose canvas export is its payload. -/
def captureTexture (m : Material) : Option String :=
  m.map

/-- `serializeMaterial(mesh, type, textureDataURL)` (file lines 610-618):
records name, uuid, colour, preset tag, the passed texture payload, and
roughness/metalness through the `|| 0.5` default. -/
def serializeMaterial (mesh : Mesh) (type : String) (textureDataURL : Option String) : Snapshot :=
  { name := mesh.name
    uuid := mesh.uuid
    color := mesh.material.color
    preset := type
    textureDataURL := textureDataURL
    roughness := orHalf mesh.material.roughness
    metalness := orHalf mesh.material.metalness }

/-- The brand-new `THREE.MeshStandardMaterial` that `deserializeMaterial`
builds from a snapshot (file lines 631-639): colour, roughness/metalness
through `|| 0.5`, and the texture only when the payload is truthy (a fresh
material has no map). -/
def snapshotMaterial (saved : Snapshot) : Material :=
  { color := saved.color
    roughness := orHalf saved.roughness
    metalness := orHalf saved.metalness
    map := if truthyStr saved.textureDataURL then saved.textureDataURL else none }

/-- `deserializeMaterial(scene, saved)` (file lines 620-644): resolve the
target by uuid first, then by (truthy) name as fallback; if unresolved, warn
and leave the scene unchanged; otherwise assign the rebuilt material to the
resolved mesh. -/
def deserializeMaterial (sc : Scene) (saved : Snapshot) : Scene :=
  match getObjectByUuid sc saved.uuid with
  | some _ =>
    updateMaterialFirst sc (fun m => m.uuid == saved.uuid) (fun _ => snapshotMaterial saved)
  | none =>
    if saved.name != "" then
      match getObjectByName sc saved.name with
      | some _ =>
        updateMaterialFirst sc (fun m => m.name == saved.name) (fun _ => snapshotMaterial saved)
      | none => sc
    else sc

/-- A history stack entry `{ meshName, material }` (file line 672). -/
structure Entry where
  meshName : String
  material : Snapshot
deriving DecidableEq, Inhabited

/-- `MAX_HISTORY` (file line 534). -/
def MAX_HISTORY : Nat := 20

/-- The component state the history engine manipulates: the current scene
(`null` before a model is loaded) and the two history stacks. -/
structure EditorState where
  scene : Option Scene
  undoHistory : List Entry
  redoHistory : List Entry
deriving DecidableEq

/-- The functional update inside `setUndoHistory` in `pushUndo`
(file lines 671-675): append the entry, and `shift()` the oldest element
away when the length exceeds `MAX_HISTORY`. -/
def pushEvict (h : List Entry) (e : Entry) : List Entry :=
  let updated := h ++ [e]
  if MAX_HISTORY < updated.length then updated.tail else updated

/-- `pushUndo` on a non-null mesh (file lines 664-677): serialize the mesh's
current state (texture captured from the bound map), push it onto the undo
stack with eviction, and clear the redo stack. -/
def pushUndoMesh (s : EditorState) (mesh : Mesh) (preset : String) : EditorState :=
  let currentState := serializeMaterial mesh preset (captureTexture mesh.material)
  { s with
    undoHistory := pushEvict s.undoHistory ⟨mesh.name, currentState⟩
    redoHistory := [] }

/-- `pushUndo(mesh, preset)` (file lines 664-677), including the `!mesh`
guard. -/
def pushUndo (s : EditorState) (mesh : Option Mesh) (preset : String) : EditorState :=
  match mesh with
  | none => s
  | some m => pushUndoMesh s m preset

/-- `undo()` (file lines 679-694): no-op when the undo stack is empty, no
scene is attached, or the entry's `meshName` resolves to no mesh; otherwise
capture the named mesh's current state onto the redo stack, pop the undo
stack, and apply the popped snapshot via `deserializeMaterial`. -/
def undo (s : EditorState) : EditorState :=
  match s.scene with
  | none => s
  | some sc =>
    match s.undoHistory.getLast? with
    | none => s
    | some lastStep =>
      match getObjectByName sc lastStep.meshName with
      | none => s
      | some mesh =>
        let currentState := serializeMaterial mesh "custom" (captureTexture mesh.material)
        { scene := some (deserializeMaterial sc lastStep.material)
          undoHistory := s.undoHistory.dropLast
          redoHistory := s.redoHistory ++ [⟨lastStep.meshName, currentState⟩] }

/-- `redo()` (file lines 696-711): symmetric to `undo`, with the captured
current state pushed onto the undo stack without eviction. -/
def redo (s : EditorState) : EditorState :=
  match s.scene with
  | none => s
  | some sc =>
    match s.redoHistory.getLast? with
    | none => s
    | some lastStep =>
      match getObjectByName sc lastStep.meshName with
      | none => s
      | some mesh =>
        let currentState := serializeMaterial mesh "custom" (captureTexture mesh.material)
        { scene := some (deserializeMaterial sc lastStep.material)
          undoHistory := s.undoHistory ++ [⟨lastStep.meshName, currentState⟩]
          redoHistory := s.redoHistory.dropLast }

/-- `resetHistory()` (file lines 713-718): clear both stacks. -/
def resetHistory (s : EditorState) : EditorState :=
  { s with undoHistory := [], redoHistory := [] }

/-- A user edit as issued by `applyColorToSelected` / `applyMaterialPreset` /
`applyTextureToSelected`: the selected mesh (identified by its per-load
uuid) and the material its visual slot holds after the mutation. -/
structure EditSpec where
  uuid : String
  preset : String
  newMat : Material

/-- The scene after mutating the selected mesh's material slot. -/
def editScene (sc : Scene) (e : EditSpec) : Scene :=
  updateMaterialFirst sc (fun m => m.uuid == e.uuid) (fun _ => e.newMat)

/-- A user edit action: `await pushUndo(selectedMesh, preset)` followed by
the material mutation (file lines 724-746).  Nothing happens when no scene
is attached or the selected mesh is gone. -/
def applyEdit (s : EditorState) (e : EditSpec) : EditorState :=
  match s.scene with
  | none => s
  | some sc =>
    match getObjectByUuid sc e.uuid with
    | none => s
    | some mesh =>
      let s1 := pushUndoMesh s mesh e.preset
      { s1 with scene := some (editScene sc e) }

/-- A sequence of user edits. -/
def runEdits (s : EditorState) (edits : List EditSpec) : EditorState :=
  edits.foldl applyEdit s

/-- The scene after a sequence of edits. -/
def editsScene (sc : Scene) (edits : List EditSpec) : Scene :=
  edits.foldl editScene sc

/-- The history operations a user can trigger. -/
inductive Op where
  | push : Option Mesh → String → Op
  | edit : EditSpec → Op
  | doUndo : Op
  | doRedo : Op
  | reset : Op

/-- Run one operation. -/
def runOp (s : EditorState) : Op → EditorState
  | .push m p => pushUndo s m p
  | .edit e => applyEdit s e
  | .doUndo => undo s
  | .doRedo => redo s
  | .reset => resetHistory s

/-- Run a sequence of operations. -/
def runOps (s : EditorState) (ops : List Op) : EditorState :=
  ops.foldl runOp s

/-- One entry of the persisted `modelState.materials` document.
`collectMaterialStates` (file lines 795-809) writes exactly the fields
`name`, `color` and `textureDataURL`; the `uuid` and `texture` fields that
the `loadFromIndexedDB` reader destructures (file line 1446) are absent
(`undefined`) on such documents, modelled as `none` defaults. -/
structure SavedMaterial where
  name : String
  color : Nat
  textureDataURL : Option String
  uuid : Option String := none
  texture : Option String := none
deriving DecidableEq

/-- The in-place mutation the restore effect performs on one resolved mesh
(file lines 596-600): overwrite the colour, and overwrite the bound texture
only when the persisted payload is truthy. -/
def matRestore (m : Material) (r : SavedMaterial) : Material :=
  { m with
    color := r.color
    map := if truthyStr r.textureDataURL then r.textureDataURL else m.map }

/-- One iteration of the restore effect's `saved.materials.forEach`
(file lines 593-601): resolve by name, skip silently when absent. -/
def restoreOne (sc : Scene) (r : SavedMaterial) : Scene :=
  match getObjectByName sc r.name with
  | none => sc
  | some _ => updateMaterialFirst sc (fun m => m.name == r.name) (fun m => matRestore m r)

/-- The whole restore effect body applied to a fetched `modelState`
document (file lines 588-604). -/
def restoreMaterials (sc : Scene) (ms : List SavedMaterial) : Scene :=
  ms.foldl restoreOne sc

/-- One iteration of the `setTimeout` restoration inside `loadFromIndexedDB`
(file lines 1446-1456): destructure `{ uuid, color, texture }`, resolve by
uuid via the global scene handle; `getObjectByProperty('uuid', undefined)`
resolves nothing when the field is absent. -/
def loadRestoreOne (sc : Scene) (r : SavedMaterial) : Scene :=
  match r.uuid with
  | none => sc
  | some u =>
    match getObjectByUuid sc u with
    | none => sc
    | some _ =>
      updateMaterialFirst sc (fun m => m.uuid == u)
        (fun m => { m with
          color := r.color
          map := if truthyStr r.texture then r.texture else m.map })

/-- The whole `setTimeout` restoration body of `loadFromIndexedDB`
(file lines 1442-1458). -/
def loadRestore (sc : Scene) (ms : List SavedMaterial) : Scene :=
  ms.foldl loadRestoreOne sc

/-- `collectMaterialStates(root)` (file lines 795-809): one entry per mesh,
in traversal order, holding name, current colour and the bound texture's
payload. -/
def collectMaterialStates (sc : Scene) : List SavedMaterial :=
  sc.map (fun m =>
    { name := m.name, color := m.material.color, textureDataURL := captureTexture m.material })

/-- The two asynchronous completions the restoration coordinator must
reconcile: the scene graph becoming ready (upon which the scene-triggered
restore effect of file lines 588-604 fetches the persisted document and
applies it by name), and the `loadFromIndexedDB` timeout firing (upon which
the persisted document is applied by uuid through the global scene handle,
file lines 1442-1458, provided the scene is already mounted). -/
inductive CoordEvent where
  | graphReady : Scene → CoordEvent
  | timeoutFired : CoordEvent

/-- One coordinator step.  `doc` is the persisted `modelState` document
(`none` when nothing was ever saved); the state is the mounted scene, if
any. -/
def coordStep (doc : Option (List SavedMaterial)) (c : Option Scene) : CoordEvent → Option Scene
  | .graphReady sc =>
    match doc with
    | some ms => some (restoreMaterials sc ms)
    | none => some sc
  | .timeoutFired =>
    match c, doc with
    | some sc, some ms => some (loadRestore sc ms)
    | _, _ => c

/-- Run a sequence of coordinator events. -/
def coordRun (doc : Option (List SavedMaterial)) (c : Option Scene)
    (evs : List CoordEvent) : Option Scene :=
  evs.foldl (coordStep doc) c

/-- A node of a freshly parsed scene graph, as the auto-namer sees it:
whether it is a mesh, and its authored name (empty when unnamed). -/
structure SceneNode where
  isMesh : Bool
  name : String
deriving DecidableEq

/-- The auto-namer of the `Model` component (file lines 1136-1147):
`scene.traverse((obj, idx) => { if (obj.isMesh) { if (!obj.name || obj.name
=== '') obj.name = `part_${idx}`; ... } })`.  `THREE.Object3D.traverse`
invokes its callback with the visited node as the only argument, so the
second parameter `idx` is `undefined` at every call and the template
literal interpolates it as the string "undefined": every unnamed mesh
receives the name `part_undefined`. -/
def assignPartNames (nodes : List SceneNode) : List SceneNode :=
  nodes.map (fun o =>
    if o.isMesh && (o.name == "") then { o with name := "part_undefined" } else o)

/-- Modelled from the spec: the Stable Identity Assigner contract (spec
section 4.1), which is absent from the implementation — every unnamed mesh
receives `part_<index>` with `<index>` its ordinal position, counted from
zero, over meshes in traversal order, and authored names are untouched. -/
def specAssignGo : Nat → List SceneNode → List SceneNode
  | _, [] => []
  | ctr, o :: rest =>
    if o.isMesh then
      (if o.name == "" then { o with name := "part_" ++ toString ctr } else o) ::
        specAssignGo (ctr + 1) rest
    else o :: specAssignGo ctr rest

/-- Modelled from the spec: entry point of the contractual assigner,
starting the mesh ordinal at zero. -/
def specAssignPartNames (nodes : List SceneNode) : List SceneNode :=
  specAssignGo 0 nodes

/-- Modelled from the spec: the Snapshot Codec `apply` contract (spec
section 4.2) — resolve `snapshot.targetName` against the live scene by name
only, with no fallback to a transient identity; if unresolved, return
without error. -/
def deserializeMaterialNameOnly (sc : Scene) (saved : Snapshot) : Scene :=
  match getObjectByName sc saved.name with
  | none => sc
  | some _ =>
    updateMaterialFirst sc (fun m => m.name == saved.name) (fun _ => snapshotMaterial saved)

/-- A material that the snapshot codec represents exactly: its roughness
and metalness survive the JS `|| 0.5` default (they are nonzero), and a
bound texture payload survives the JS truthiness test (it is not the empty
string). -/
def faithfulMat (m : Material) : Prop :=
  m.roughness ≠ 0 ∧ m.metalness ≠ 0 ∧ m.map ≠ some ""

instance (m : Material) : Decidable (faithfulMat m) :=
  inferInstanceAs (Decidable (m.roughness ≠ 0 ∧ m.metalness ≠ 0 ∧ m.map ≠ some ""))

/-- The history entry that `pushUndo` records for an edit issued at scene
`sc` (the pre-edit state of the edit's target). -/
def entryOf (sc : Scene) (e : EditSpec) : Entry :=
  match getObjectByUuid sc e.uuid with
  | some t => ⟨t.name, serializeMaterial t e.preset (captureTexture t.material)⟩
  | none => default

/-- The redo entry that `undo` records when it reverts the edit `e` issued
at scene `sc` (the post-edit state of the edit's target). -/
def capOf (sc : Scene) (e : EditSpec) : Entry :=
  match getObjectByUuid sc e.uuid with
  | some t =>
    ⟨t.name, serializeMaterial { t with material := e.newMat } "custom" (captureTexture e.newMat)⟩
  | none => default

/-- The undo entry that `redo` records when it replays the edit `e` at
scene `sc` (the pre-edit state of the edit's target, tagged "custom"). -/
def backOf (sc : Scene) (e : EditSpec) : Entry :=
  match getObjectByUuid sc e.uuid with
  | some t => ⟨t.name, serializeMaterial t "custom" (captureTexture t.material)⟩
  | none => default

/-- The history entries a sequence of edits pushes, each captured at the
scene current when its edit was issued. -/
def entriesList (sc : Scene) : List EditSpec → List Entry
  | [] => []
  | e :: es => entryOf sc e :: entriesList (editScene sc e) es

/-- The name and uuid skeleton of a scene; material edits never change
it. -/
def skeleton (sc : Scene) : List (String × String) :=
  sc.map (fun m => (m.name, m.uuid))

/-- Index of the first mesh satisfying `p` (proof-side helper mirroring
what `getObjectByName` / `getObjectByProperty` resolve). -/
def firstIdx (p : Mesh → Bool) : Scene → Option Nat
  | [] => none
  | m :: rest => if p m then some 0 else (firstIdx p rest).map (· + 1)

/-- The per-material effect of replaying a list of persisted entries onto
one material (proof-side helper for the restore effect). -/
def matRestoreFold (m : Material) (rs : List SavedMaterial) : Material :=
  rs.foldl matRestore m

/-- The last truthy texture payload of a list of persisted entries, if
any. -/
def lastTruthy (rs : List SavedMaterial) : Option String :=
  rs.foldl (fun acc r => if truthyStr r.textureDataURL then r.textureDataURL else acc) none

/-- A well-formed scene for round-trip reasoning: stable names are unique
(the spec's uniqueness invariant), per-load uuids are unique (guaranteed by
the renderer), and every material is representable by the codec. -/
def GoodScene (sc : Scene) : Prop :=
  (sc.map Mesh.name).Nodup ∧ (sc.map Mesh.uuid).Nodup ∧ ∀ m ∈ sc, faithfulMat m.material

instance (sc : Scene) : Decidable (GoodScene sc) :=
  inferInstanceAs (Decidable (_ ∧ _ ∧ ∀ m ∈ sc, faithfulMat m.material))

/-- Edits whose targets live in the scene and whose new materials are
representable by the codec. -/
def GoodEdits (sc : Scene) (edits : List EditSpec) : Prop :=
  ∀ e ∈ edits, (getObjectByUuid sc e.uuid).isSome ∧ faithfulMat e.newMat

instance (sc : Scene) (edits : List EditSpec) : Decidable (GoodEdits sc edits) :=
  inferInstanceAs (Decidable (∀ e ∈ edits, (getObjectByUuid sc e.uuid).isSome ∧ faithfulMat e.newMat))

theorem half_eq_div : half = 1 / 2 := by
  rw [half, Rat.mk'_eq_divInt, Rat.divInt_eq_div]
  norm_num

theorem half_ne_zero : half ≠ 0 := by decide

theorem orHalf_of_ne (x : ℚ) (hx : x ≠ 0) : orHalf x = x := by
  simp [orHalf, hx]

theorem orHalf_ne_zero (x : ℚ) : orHalf x ≠ 0 := by
  rcases eq_or_ne x 0 with h | h
  · simp [orHalf, h, half_ne_zero]
  · simp [orHalf, h]

theorem snapshotMaterial_serializeMaterial (mesh : Mesh) (p : String)
    (hf : faithfulMat mesh.material) :
    snapshotMaterial (serializeMaterial mesh p (captureTexture mesh.material)) = mesh.material := by
  obtain ⟨hr, hm, hmap⟩ := hf
  obtain ⟨nm, uu, ⟨c, r, mt, mp⟩⟩ := mesh
  unfold snapshotMaterial serializeMaterial captureTexture
  cases mp with
  | none =>
    simp_all [truthyStr, orHalf_of_ne]
  | some s =>
    have hs : s ≠ "" := by
      intro h
      exact hmap (by simp [h])
    simp_all [truthyStr, orHalf_of_ne]

theorem updateMaterialFirst_length (sc : Scene) (p : Mesh → Bool) (f : Material → Material) :
    (updateMaterialFirst sc p f).length = sc.length := by
  induction sc with
  | nil => rfl
  | cons m rest ih =>
    by_cases h : p m <;> simp [updateMaterialFirst, h, ih]

theorem updateMaterialFirst_of_find?_none (sc : Scene) (p : Mesh → Bool)
    (f : Material → Material) (h : sc.find? p = none) :
    updateMaterialFirst sc p f = sc := by
  induction sc with
  | nil => rfl
  | cons m rest ih =>
    rw [List.find?_cons] at h
    cases hp : p m with
    | true => rw [hp] at h; exact absurd h (by simp)
    | false =>
      rw [hp] at h
      simp only [updateMaterialFirst, hp, Bool.false_eq_true, if_false, List.cons.injEq, true_and]
      exact ih h

/-- A predicate that only inspects the name/uuid skeleton of a mesh. -/
def MaterialBlind (p : Mesh → Bool) : Prop :=
  ∀ (m : Mesh) (mat : Material), p { m with material := mat } = p m

theorem materialBlind_uuid (u : String) : MaterialBlind (fun m => m.uuid == u) := by
  intro m mat
  rfl

theorem materialBlind_name (n : String) : MaterialBlind (fun m => m.name == n) := by
  intro m mat
  rfl

theorem find?_updateMaterialFirst_self (sc : Scene) (p : Mesh → Bool)
    (f : Material → Material) (hp : MaterialBlind p) :
    (updateMaterialFirst sc p f).find? p
      = (sc.find? p).map (fun t => { t with material := f t.material }) := by
  induction sc with
  | nil => rfl
  | cons m rest ih =>
    cases hm : p m with
    | true =>
      simp only [updateMaterialFirst, hm, if_true, List.find?_cons, hp m (f m.material)]
      simp
    | false =>
      simp only [updateMaterialFirst, hm, Bool.false_eq_true, if_false, List.find?_cons,
        hp m (f m.material)]
      exact ih

theorem map_name_updateMaterialFirst (sc : Scene) (p : Mesh → Bool) (f : Material → Material) :
    (updateMaterialFirst sc p f).map Mesh.name = sc.map Mesh.name := by
  induction sc with
  | nil => rfl
  | cons m rest ih =>
    by_cases h : p m <;> simp [updateMaterialFirst, h, ih]

theorem map_uuid_updateMaterialFirst (sc : Scene) (p : Mesh → Bool) (f : Material → Material) :
    (updateMaterialFirst sc p f).map Mesh.uuid = sc.map Mesh.uuid := by
  induction sc with
  | nil => rfl
  | cons m rest ih =>
    by_cases h : p m <;> simp [updateMaterialFirst, h, ih]

theorem skeleton_updateMaterialFirst (sc : Scene) (p : Mesh → Bool) (f : Material → Material) :
    skeleton (updateMaterialFirst sc p f) = skeleton sc := by
  induction sc with
  | nil => rfl
  | cons m rest ih =>
    by_cases h : p m
    · simp [updateMaterialFirst, skeleton, h]
    · simp only [updateMaterialFirst, h, if_false, skeleton, List.map_cons, List.cons.injEq,
        true_and]
      simpa [skeleton] using ih

theorem find?_skeleton_congr (g : String × String → Bool) :
    ∀ (sc sc' : Scene), skeleton sc = skeleton sc' →
      Option.map (fun m => (m.name, m.uuid)) (sc.find? (fun m => g (m.name, m.uuid)))
        = Option.map (fun m => (m.name, m.uuid)) (sc'.find? (fun m => g (m.name, m.uuid)))
  | [], [], _ => rfl
  | [], _ :: _, h => by simp [skeleton] at h
  | _ :: _, [], h => by simp [skeleton] at h
  | m :: rest, m' :: rest', h => by
    simp only [skeleton, List.map_cons, List.cons.injEq] at h
    obtain ⟨h1, h2⟩ := h
    rw [List.find?_cons, List.find?_cons, h1]
    cases hg : g (m'.name, m'.uuid) with
    | true => simp [hg, h1]
    | false => simp only [hg]; exact find?_skeleton_congr g rest rest' h2

theorem find?_eq_of_mem_nodup (k : Mesh → String) (sc : Scene) (m : Mesh)
    (hnd : (sc.map k).Nodup) (hm : m ∈ sc) :
    sc.find? (fun x => k x == k m) = some m := by
  induction sc with
  | nil => exact absurd hm (List.not_mem_nil m)
  | cons a rest ih =>
    rw [List.map_cons, List.nodup_cons] at hnd
    rcases List.mem_cons.mp hm with rfl | hmem
    · rw [List.find?_cons]
      simp
    · have hne : k a ≠ k m := by
        intro h
        exact hnd.1 (h ▸ List.mem_map_of_mem k hmem)
      rw [List.find?_cons]
      have : (k a == k m) = false := by
        simp [hne]
      rw [this]
      exact ih hnd.2 hmem

theorem mem_updateMaterialFirst (sc : Scene) (p : Mesh → Bool) (f : Material → Material)
    (m' : Mesh) (h : m' ∈ updateMaterialFirst sc p f) :
    m' ∈ sc ∨ ∃ m ∈ sc, m' = { m with material := f m.material } := by
  induction sc with
  | nil => exact absurd h (List.not_mem_nil m')
  | cons a rest ih =>
    by_cases ha : p a
    · simp only [updateMaterialFirst, ha, if_true] at h
      rcases List.mem_cons.mp h with rfl | hmem
      · exact Or.inr ⟨a, List.mem_cons_self a rest, rfl⟩
      · exact Or.inl (List.mem_cons_of_mem a hmem)
    · simp only [updateMaterialFirst, ha, if_false] at h
      rcases List.mem_cons.mp h with rfl | hmem
      · exact Or.inl (List.mem_cons_self m' rest)
      · rcases ih hmem with h1 | ⟨m, hm, rfl⟩
        · exact Or.inl (List.mem_cons_of_mem a h1)
        · exact Or.inr ⟨m, List.mem_cons_of_mem a hm, rfl⟩

theorem updateMaterialFirst_const_const (sc : Scene) (p : Mesh → Bool) (hp : MaterialBlind p)
    (a b : Material) :
    updateMaterialFirst (updateMaterialFirst sc p (fun _ => a)) p (fun _ => b)
      = updateMaterialFirst sc p (fun _ => b) := by
  induction sc with
  | nil => rfl
  | cons m rest ih =>
    cases hm : p m with
    | true =>
      simp [updateMaterialFirst, hm, hp m a]
    | false =>
      simp only [updateMaterialFirst, hm, Bool.false_eq_true, if_false, hm, ih]

theorem updateMaterialFirst_restore (sc : Scene) (p : Mesh → Bool) (t : Mesh)
    (h : sc.find? p = some t) :
    updateMaterialFirst sc p (fun _ => t.material) = sc := by
  induction sc with
  | nil => simp [List.find?] at h
  | cons m rest ih =>
    rw [List.find?_cons] at h
    cases hm : p m with
    | true =>
      rw [hm] at h
      simp only at h
      cases h
      simp [updateMaterialFirst, hm]
    | false =>
      rw [hm] at h
      simp only at h
      simp only [updateMaterialFirst, hm, Bool.false_eq_true, if_false, List.cons.injEq, true_and]
      exact ih h

/-- C5: every `pushUndo` call that records a new user-initiated edit (a
non-null mesh; a mesh's material slot is always populated) leaves the redo
stack empty, whatever it held before. -/
theorem pushUndo_clears_redoHistory (s : EditorState) (mesh : Mesh) (preset : String) :
    (pushUndo s (some mesh) preset).redoHistory = [] :=
  rfl

/-- C10 (amended): `serializeMaterial` records roughness and metalness
exactly when they are nonzero, and substitutes the default `0.5` when the
field is zero (the JS `||` default conflates the float `0` with an absent
field) — not only when the field is absent. -/
theorem serializeMaterial_records_nonzero_exactly (mesh : Mesh) (p : String)
    (tex : Option String) :
    (mesh.material.roughness ≠ 0 →
      (serializeMaterial mesh p tex).roughness = mesh.material.roughness)
    ∧ (mesh.material.roughness = 0 → (serializeMaterial mesh p tex).roughness = half)
    ∧ (mesh.material.metalness ≠ 0 →
      (serializeMaterial mesh p tex).metalness = mesh.material.metalness)
    ∧ (mesh.material.metalness = 0 → (serializeMaterial mesh p tex).metalness = half) := by
  refine ⟨fun h => orHalf_of_ne _ h, fun h => ?_, fun h => orHalf_of_ne _ h, fun h => ?_⟩
  · show orHalf mesh.material.roughness = half
    simp [orHalf, h]
  · show orHalf mesh.material.metalness = half
    simp [orHalf, h]

/-- Witness for C10's amended theorem: a mesh with roughness `1` and
metalness `0` serializes to roughness `1` and metalness `0.5`. -/
theorem serializeMaterial_records_nonzero_exactly_witness :
    (serializeMaterial ⟨"part_0", "u0", ⟨10, 1, 0, none⟩⟩ "custom" none).roughness = 1
    ∧ (serializeMaterial ⟨"part_0", "u0", ⟨10, 1, 0, none⟩⟩ "custom" none).metalness = half :=
  ⟨(serializeMaterial_records_nonzero_exactly ⟨"part_0", "u0", ⟨10, 1, 0, none⟩⟩ "custom"
      none).1 (by decide),
    (serializeMaterial_records_nonzero_exactly ⟨"part_0", "u0", ⟨10, 1, 0, none⟩⟩ "custom"
      none).2.2.2 (by decide)⟩

/-- Counterexample to C10 as stated: a material whose roughness is the
float `0` is not recorded exactly — the snapshot holds `0.5` instead. -/
theorem serializeMaterial_zero_roughness_cex :
    (⟨"part_0", "u0", ⟨10, 0, 1, none⟩⟩ : Mesh).material.roughness = 0
    ∧ (serializeMaterial ⟨"part_0", "u0", ⟨10, 0, 1, none⟩⟩ "custom" none).roughness
        ≠ (⟨"part_0", "u0", ⟨10, 0, 1, none⟩⟩ : Mesh).material.roughness := by
  decide

/-- C3 (code bug): on a freshly parsed graph of two unnamed meshes the
auto-namer (file lines 1136-1147) names both of them `part_undefined`,
because `THREE.Object3D.traverse` hands its callback only the visited node
and the callback's second parameter `idx` is therefore `undefined`; the
spec's contract (and the code's own comment "give it one based on index")
require `part_0` and `part_1`. -/
theorem assignPartNames_at_unnamed_meshes :
    assignPartNames [⟨true, ""⟩, ⟨true, ""⟩]
        = [⟨true, "part_undefined"⟩, ⟨true, "part_undefined"⟩]
    ∧ specAssignPartNames [⟨true, ""⟩, ⟨true, ""⟩] = [⟨true, "part_0"⟩, ⟨true, "part_1"⟩]
    ∧ assignPartNames [⟨true, ""⟩, ⟨true, ""⟩]
        ≠ specAssignPartNames [⟨true, ""⟩, ⟨true, ""⟩] := by
  decide

/-- C6 (amended): `deserializeMaterial` resolves the snapshot's target by
uuid FIRST — whenever the uuid matches a mesh, that mesh (not the mesh the
name designates) receives the material — and only when the uuid resolves to
nothing and the name is truthy does it fall back to the spec's name-only
resolution. -/
theorem deserializeMaterial_uuid_first_then_name (sc : Scene) (saved : Snapshot) :
    (∀ t, getObjectByUuid sc saved.uuid = some t →
      deserializeMaterial sc saved
        = updateMaterialFirst sc (fun m => m.uuid == saved.uuid) (fun _ => snapshotMaterial saved))
    ∧ (getObjectByUuid sc saved.uuid = none → saved.name ≠ "" →
      deserializeMaterial sc saved = deserializeMaterialNameOnly sc saved) := by
  constructor
  · intro t ht
    unfold deserializeMaterial
    rw [ht]
  · intro hu hname
    unfold deserializeMaterial deserializeMaterialNameOnly
    rw [hu]
    cases hfind : getObjectByName sc saved.name with
    | none => simp [hname, hfind]
    | some t => simp [hname, hfind]

/-- Witness for C6's amended theorem: the uuid branch fires on a scene
where the uuid matches, and the name-only fallback is exercised on a scene
where it does not. -/
theorem deserializeMaterial_uuid_first_then_name_witness :
    deserializeMaterial [⟨"a", "u1", ⟨1, 1, 1, none⟩⟩] ⟨"a", "u1", 5, "p", none, 1, 1⟩
        = updateMaterialFirst [⟨"a", "u1", ⟨1, 1, 1, none⟩⟩]
            (fun m => m.uuid == (⟨"a", "u1", 5, "p", none, 1, 1⟩ : Snapshot).uuid)
            (fun _ => snapshotMaterial ⟨"a", "u1", 5, "p", none, 1, 1⟩)
    ∧ deserializeMaterial [⟨"a", "u1", ⟨1, 1, 1, none⟩⟩] ⟨"a", "u9", 5, "p", none, 1, 1⟩
        = deserializeMaterialNameOnly [⟨"a", "u1", ⟨1, 1, 1, none⟩⟩]
            ⟨"a", "u9", 5, "p", none, 1, 1⟩ :=
  ⟨(deserializeMaterial_uuid_first_then_name [⟨"a", "u1", ⟨1, 1, 1, none⟩⟩]
      ⟨"a", "u1", 5, "p", none, 1, 1⟩).1 ⟨"a", "u1", ⟨1, 1, 1, none⟩⟩ (by decide),
    (deserializeMaterial_uuid_first_then_name [⟨"a", "u1", ⟨1, 1, 1, none⟩⟩]
      ⟨"a", "u9", 5, "p", none, 1, 1⟩).2 (by decide) (by decide)⟩

/-- Counterexample to C6 as stated: on a scene holding a mesh `real` with
uuid `u1` and a mesh `target` with uuid `u2`, applying a snapshot whose
targetName is `target` but whose recorded uuid is `u1` rewrites `real` —
the uuid is consulted before (and instead of) the name, diverging from the
spec's name-only contract. -/
theorem deserializeMaterial_not_name_only_cex :
    deserializeMaterial [⟨"real", "u1", ⟨1, 1, 1, none⟩⟩, ⟨"target", "u2", ⟨2, 1, 1, none⟩⟩]
        ⟨"target", "u1", 7, "custom", none, 1, 1⟩
      = [⟨"real", "u1", ⟨7, 1, 1, none⟩⟩, ⟨"target", "u2", ⟨2, 1, 1, none⟩⟩]
    ∧ deserializeMaterialNameOnly
        [⟨"real", "u1", ⟨1, 1, 1, none⟩⟩, ⟨"target", "u2", ⟨2, 1, 1, none⟩⟩]
        ⟨"target", "u1", 7, "custom", none, 1, 1⟩
      = [⟨"real", "u1", ⟨1, 1, 1, none⟩⟩, ⟨"target", "u2", ⟨7, 1, 1, none⟩⟩]
    ∧ deserializeMaterial [⟨"real", "u1", ⟨1, 1, 1, none⟩⟩, ⟨"target", "u2", ⟨2, 1, 1, none⟩⟩]
        ⟨"target", "u1", 7, "custom", none, 1, 1⟩
      ≠ deserializeMaterialNameOnly
          [⟨"real", "u1", ⟨1, 1, 1, none⟩⟩, ⟨"target", "u2", ⟨2, 1, 1, none⟩⟩]
          ⟨"target", "u1", 7, "custom", none, 1, 1⟩ := by
  decide

/-- C9 (amended): when NEITHER the recorded uuid nor the targetName
resolves to a mesh, `deserializeMaterial` leaves the scene unchanged, and a
`modelState` restoration entry whose name is absent is skipped by the
restore effect; no error is raised (both are total functions). -/
theorem unresolved_target_apply_noop (sc : Scene) (saved : Snapshot) (r : SavedMaterial)
    (hu : getObjectByUuid sc saved.uuid = none)
    (hn : getObjectByName sc saved.name = none)
    (hr : getObjectByName sc r.name = none) :
    deserializeMaterial sc saved = sc ∧ restoreOne sc r = sc := by
  constructor
  · unfold deserializeMaterial
    rw [hu]
    cases hb : (saved.name != "") <;> simp [hb, hn]
  · unfold restoreOne
    rw [hr]

/-- Witness for C9's amended theorem at a concrete scene and snapshot. -/
theorem unresolved_target_apply_noop_witness :
    deserializeMaterial [⟨"x", "u1", ⟨1, 1, 1, none⟩⟩] ⟨"ghost", "u9", 7, "p", none, 1, 1⟩
        = [⟨"x", "u1", ⟨1, 1, 1, none⟩⟩]
    ∧ restoreOne [⟨"x", "u1", ⟨1, 1, 1, none⟩⟩] { name := "gone", color := 9, textureDataURL := none }
        = [⟨"x", "u1", ⟨1, 1, 1, none⟩⟩] :=
  unresolved_target_apply_noop [⟨"x", "u1", ⟨1, 1, 1, none⟩⟩] ⟨"ghost", "u9", 7, "p", none, 1, 1⟩
    { name := "gone", color := 9, textureDataURL := none } (by decide) (by decide) (by decide)

/-- Counterexample to C9 as stated: a snapshot whose targetName `ghost`
resolves to no mesh still mutates the scene, because the recorded uuid
`u1` resolves. -/
theorem unresolved_name_still_applies_by_uuid_cex :
    getObjectByName [⟨"real", "u1", ⟨1, 1, 1, none⟩⟩] "ghost" = none
    ∧ deserializeMaterial [⟨"real", "u1", ⟨1, 1, 1, none⟩⟩] ⟨"ghost", "u1", 7, "custom", none, 1, 1⟩
        ≠ [⟨"real", "u1", ⟨1, 1, 1, none⟩⟩] := by
  decide

/-- C7 (amended): when the entry at the top of the undo (resp. redo) stack
names an object absent from the current scene, `undo` (resp. `redo`)
returns early and the entry is NOT consumed — the whole state, both stacks
included, is left unchanged, and no visible change happens to the scene. -/
theorem missing_target_preserves_state (s : EditorState) (sc : Scene)
    (hsc : s.scene = some sc) :
    (∀ e, s.undoHistory.getLast? = some e → getObjectByName sc e.meshName = none →
      undo s = s)
    ∧ (∀ e, s.redoHistory.getLast? = some e → getObjectByName sc e.meshName = none →
      redo s = s) := by
  constructor
  · intro e he hn
    simp [undo, hsc, he, hn]
  · intro e he hn
    simp [redo, hsc, he, hn]

/-- Witness for C7's amended theorem on a concrete state whose two stack
tops name a mesh missing from the scene. -/
theorem missing_target_preserves_state_witness :
    undo { scene := some [⟨"a", "u1", ⟨1, 1, 1, none⟩⟩]
           undoHistory := [⟨"ghost", ⟨"ghost", "u9", 1, "custom", none, 1, 1⟩⟩]
           redoHistory := [⟨"ghost2", ⟨"ghost2", "u8", 2, "custom", none, 1, 1⟩⟩] }
      = { scene := some [⟨"a", "u1", ⟨1, 1, 1, none⟩⟩]
          undoHistory := [⟨"ghost", ⟨"ghost", "u9", 1, "custom", none, 1, 1⟩⟩]
          redoHistory := [⟨"ghost2", ⟨"ghost2", "u8", 2, "custom", none, 1, 1⟩⟩] }
    ∧ redo { scene := some [⟨"a", "u1", ⟨1, 1, 1, none⟩⟩]
             undoHistory := [⟨"ghost", ⟨"ghost", "u9", 1, "custom", none, 1, 1⟩⟩]
             redoHistory := [⟨"ghost2", ⟨"ghost2", "u8", 2, "custom", none, 1, 1⟩⟩] }
      = { scene := some [⟨"a", "u1", ⟨1, 1, 1, none⟩⟩]
          undoHistory := [⟨"ghost", ⟨"ghost", "u9", 1, "custom", none, 1, 1⟩⟩]
          redoHistory := [⟨"ghost2", ⟨"ghost2", "u8", 2, "custom", none, 1, 1⟩⟩] } :=
  ⟨(missing_target_preserves_state _ [⟨"a", "u1", ⟨1, 1, 1, none⟩⟩] rfl).1
      ⟨"ghost", ⟨"ghost", "u9", 1, "custom", none, 1, 1⟩⟩ (by decide) (by decide),
    (missing_target_preserves_state _ [⟨"a", "u1", ⟨1, 1, 1, none⟩⟩] rfl).2
      ⟨"ghost2", ⟨"ghost2", "u8", 2, "custom", none, 1, 1⟩⟩ (by decide) (by decide)⟩

theorem pushEvict_length_le (h : List Entry) (e : Entry) (hh : h.length ≤ MAX_HISTORY) :
    (pushEvict h e).length ≤ MAX_HISTORY := by
  simp only [pushEvict]
  split
  · rename_i hcond
    simp only [List.length_tail, List.length_append, List.length_cons, List.length_nil] at *
    omega
  · rename_i hcond
    simp only [List.length_append, List.length_cons, List.length_nil] at hcond ⊢
    omega

theorem getLast?_some_ne_nil {α : Type} {l : List α} {a : α} (h : l.getLast? = some a) :
    l ≠ [] := by
  intro hnil
  rw [hnil] at h
  simp at h

theorem runOp_stack_sum (s : EditorState) (op : Op)
    (h : s.undoHistory.length + s.redoHistory.length ≤ MAX_HISTORY) :
    (runOp s op).undoHistory.length + (runOp s op).redoHistory.length ≤ MAX_HISTORY := by
  have hlen : s.undoHistory.length ≤ MAX_HISTORY := le_trans (Nat.le_add_right _ _) h
  cases op with
  | push mo preset =>
    cases mo with
    | none => exact h
    | some m =>
      simp only [runOp, pushUndo, pushUndoMesh, List.length_nil, Nat.add_zero]
      exact pushEvict_length_le _ _ hlen
  | edit e =>
    cases hsc : s.scene with
    | none => simpa [runOp, applyEdit, hsc] using h
    | some sc =>
      cases hfind : getObjectByUuid sc e.uuid with
      | none => simpa [runOp, applyEdit, hsc, hfind] using h
      | some mesh =>
        simp only [runOp, applyEdit, hsc, hfind, pushUndoMesh, List.length_nil, Nat.add_zero]
        exact pushEvict_length_le _ _ hlen
  | doUndo =>
    cases hsc : s.scene with
    | none => simpa [runOp, undo, hsc] using h
    | some sc =>
      cases hlast : s.undoHistory.getLast? with
      | none => simpa [runOp, undo, hsc, hlast] using h
      | some lastStep =>
        cases hfind : getObjectByName sc lastStep.meshName with
        | none => simpa [runOp, undo, hsc, hlast, hfind] using h
        | some mesh =>
          have hne : s.undoHistory ≠ [] := getLast?_some_ne_nil hlast
          have hpos : 0 < s.undoHistory.length := List.length_pos.mpr hne
          simp only [runOp, undo, hsc, hlast, hfind, List.length_dropLast, List.length_append,
            List.length_cons, List.length_nil]
          omega
  | doRedo =>
    cases hsc : s.scene with
    | none => simpa [runOp, redo, hsc] using h
    | some sc =>
      cases hlast : s.redoHistory.getLast? with
      | none => simpa [runOp, redo, hsc, hlast] using h
      | some lastStep =>
        cases hfind : getObjectByName sc lastStep.meshName with
        | none => simpa [runOp, redo, hsc, hlast, hfind] using h
        | some mesh =>
          have hne : s.redoHistory ≠ [] := getLast?_some_ne_nil hlast
          have hpos : 0 < s.redoHistory.length := List.length_pos.mpr hne
          simp only [runOp, redo, hsc, hlast, hfind, List.length_dropLast, List.length_append,
            List.length_cons, List.length_nil]
          omega
  | reset =>
    simp [runOp, resetHistory]

theorem runOps_stack_sum (ops : List Op) :
    ∀ s : EditorState, s.undoHistory.length + s.redoHistory.length ≤ MAX_HISTORY →
      (runOps s ops).undoHistory.length + (runOps s ops).redoHistory.length ≤ MAX_HISTORY := by
  induction ops with
  | nil => intro s h; exact h
  | cons op rest ih =>
    intro s h
    exact ih (runOp s op) (runOp_stack_sum s op h)

/-- C4: starting from a fresh session (both stacks empty), after any
sequence of `pushUndo`, user edits, `undo`, `redo` and `resetHistory`
operations both stacks hold at most `MAX_HISTORY = 20` entries; and when a
21st entry is pushed, `pushEvict` discards the head (the oldest entry),
never the newly pushed one. -/
theorem history_stacks_bounded (s0 : EditorState) (ops : List Op)
    (h1 : s0.undoHistory = []) (h2 : s0.redoHistory = []) :
    (runOps s0 ops).undoHistory.length ≤ MAX_HISTORY
    ∧ (runOps s0 ops).redoHistory.length ≤ MAX_HISTORY
    ∧ ∀ (h : List Entry) (e : Entry), h.length = MAX_HISTORY →
        pushEvict h e = h.tail ++ [e] := by
  have hsum : (runOps s0 ops).undoHistory.length + (runOps s0 ops).redoHistory.length
      ≤ MAX_HISTORY := by
    apply runOps_stack_sum
    simp [h1, h2]
  refine ⟨le_trans (Nat.le_add_right _ _) hsum, le_trans (Nat.le_add_left _ _) hsum, ?_⟩
  intro h e hlen
  unfold pushEvict
  have hcond : MAX_HISTORY < (h ++ [e]).length := by
    simp [hlen]
  rw [if_pos hcond]
  cases h with
  | nil => simp [MAX_HISTORY] at hlen
  | cons a rest => rfl

/-- Witness for C4: a push followed by an undo on a fresh session keeps
both stacks within bound, and pushing onto a full stack of twenty entries
evicts the head. -/
theorem history_stacks_bounded_witness :
    (runOps ⟨none, [], []⟩
        [.push (some ⟨"a", "u1", ⟨1, 1, 1, none⟩⟩) "custom", .doUndo]).undoHistory.length
      ≤ MAX_HISTORY
    ∧ (runOps ⟨none, [], []⟩
        [.push (some ⟨"a", "u1", ⟨1, 1, 1, none⟩⟩) "custom", .doUndo]).redoHistory.length
      ≤ MAX_HISTORY
    ∧ pushEvict (List.replicate 20 ⟨"x", ⟨"x", "u", 1, "p", none, 1, 1⟩⟩)
        ⟨"y", ⟨"y", "u", 2, "p", none, 1, 1⟩⟩
      = (List.replicate 20 ⟨"x", ⟨"x", "u", 1, "p", none, 1, 1⟩⟩).tail
          ++ [⟨"y", ⟨"y", "u", 2, "p", none, 1, 1⟩⟩] :=
  ⟨(history_stacks_bounded ⟨none, [], []⟩
      [.push (some ⟨"a", "u1", ⟨1, 1, 1, none⟩⟩) "custom", .doUndo] rfl rfl).1,
    (history_stacks_bounded ⟨none, [], []⟩
      [.push (some ⟨"a", "u1", ⟨1, 1, 1, none⟩⟩) "custom", .doUndo] rfl rfl).2.1,
    (history_stacks_bounded ⟨none, [], []⟩
      [.push (some ⟨"a", "u1", ⟨1, 1, 1, none⟩⟩) "custom", .doUndo] rfl rfl).2.2 _ _
      (by decide)⟩

theorem restoreOne_eq_update (sc : Scene) (r : SavedMaterial) :
    restoreOne sc r
      = updateMaterialFirst sc (fun m => m.name == r.name) (fun m => matRestore m r) := by
  unfold restoreOne
  cases hfind : getObjectByName sc r.name with
  | none =>
    exact (updateMaterialFirst_of_find?_none sc _ _ hfind).symm
  | some t => rfl

theorem getElem?_updateMaterialFirst (sc : Scene) (p : Mesh → Bool) (f : Material → Material) :
    ∀ i : Nat,
      (updateMaterialFirst sc p f)[i]? =
        match firstIdx p sc with
        | some j =>
          if i = j then sc[i]?.map (fun m => { m with material := f m.material }) else sc[i]?
        | none => sc[i]? := by
  induction sc with
  | nil => intro i; simp [updateMaterialFirst, firstIdx]
  | cons m rest ih =>
    intro i
    cases hp : p m with
    | true =>
      simp only [updateMaterialFirst, hp, if_true, firstIdx]
      cases i with
      | zero => simp
      | succ k => simp
    | false =>
      simp only [updateMaterialFirst, hp, Bool.false_eq_true, if_false, firstIdx]
      cases i with
      | zero =>
        cases hrest : firstIdx p rest with
        | none => simp
        | some j => simp
      | succ k =>
        have := ih k
        cases hrest : firstIdx p rest with
        | none =>
          rw [hrest] at this
          simpa using this
        | some j =>
          rw [hrest] at this
          simp only [Option.map_some, List.getElem?_cons_succ]
          rw [this]
          by_cases hkj : k = j
          · simp [hkj]
          · have : ¬ (k + 1 = j + 1) := by omega
            simp [hkj, this]

theorem firstIdx_updateMaterialFirst (sc : Scene) (p q : Mesh → Bool)
    (f : Material → Material) (hp : MaterialBlind p) :
    firstIdx p (updateMaterialFirst sc q f) = firstIdx p sc := by
  induction sc with
  | nil => rfl
  | cons m rest ih =>
    cases hq : q m with
    | true =>
      simp only [updateMaterialFirst, hq, if_true, firstIdx, hp m (f m.material)]
    | false =>
      simp only [updateMaterialFirst, hq, Bool.false_eq_true, if_false, firstIdx, ih]

theorem firstIdx_restoreOne (sc : Scene) (r : SavedMaterial) (p : Mesh → Bool)
    (hp : MaterialBlind p) :
    firstIdx p (restoreOne sc r) = firstIdx p sc := by
  rw [restoreOne_eq_update]
  exact firstIdx_updateMaterialFirst sc p _ _ hp

theorem firstIdx_restoreMaterials (ms : List SavedMaterial) :
    ∀ (sc : Scene) (p : Mesh → Bool), MaterialBlind p →
      firstIdx p (restoreMaterials sc ms) = firstIdx p sc := by
  induction ms with
  | nil => intro sc p _; rfl
  | cons r rest ih =>
    intro sc p hp
    show firstIdx p (restoreMaterials (restoreOne sc r) rest) = firstIdx p sc
    rw [ih (restoreOne sc r) p hp, firstIdx_restoreOne sc r p hp]

theorem matRestoreFold_cons (m : Material) (r : SavedMaterial) (rs : List SavedMaterial) :
    matRestoreFold m (r :: rs) = matRestoreFold (matRestore m r) rs :=
  rfl

theorem matRestoreFold_roughness (rs : List SavedMaterial) :
    ∀ m : Material, (matRestoreFold m rs).roughness = m.roughness := by
  induction rs with
  | nil => intro m; rfl
  | cons r rest ih =>
    intro m
    rw [matRestoreFold_cons, ih]
    rfl

theorem matRestoreFold_metalness (rs : List SavedMaterial) :
    ∀ m : Material, (matRestoreFold m rs).metalness = m.metalness := by
  induction rs with
  | nil => intro m; rfl
  | cons r rest ih =>
    intro m
    rw [matRestoreFold_cons, ih]
    rfl

theorem matRestoreFold_color (rs : List SavedMaterial) (m : Material) :
    (matRestoreFold m rs).color = ((rs.getLast?).map (fun r => r.color)).getD m.color := by
  induction rs using List.reverseRecOn with
  | nil => rfl
  | append_singleton rest r _ =>
    unfold matRestoreFold
    rw [List.foldl_append]
    simp [matRestore, List.getLast?_concat]

theorem matRestoreFold_map (rs : List SavedMaterial) (m : Material) :
    (matRestoreFold m rs).map = (lastTruthy rs).elim m.map some := by
  induction rs using List.reverseRecOn with
  | nil => rfl
  | append_singleton rest r ih =>
    unfold matRestoreFold lastTruthy
    rw [List.foldl_append, List.foldl_append]
    cases ht : truthyStr r.textureDataURL with
    | true =>
      cases htex : r.textureDataURL with
      | none => rw [htex] at ht; simp [truthyStr] at ht
      | some u =>
        rw [htex] at ht
        simp only [List.foldl_cons, List.foldl_nil, matRestore, htex, ht, if_true]
        rfl
    | false =>
      simp only [List.foldl_cons, List.foldl_nil, ht, Bool.false_eq_true, if_false, matRestore]
      exact ih

theorem matRestoreFold_idem (rs : List SavedMaterial) (m : Material) :
    matRestoreFold (matRestoreFold m rs) rs = matRestoreFold m rs := by
  have hc : ∀ a b : Material, a.color = b.color → a.roughness = b.roughness →
      a.metalness = b.metalness → a.map = b.map → a = b := by
    intro a b h1 h2 h3 h4
    cases a
    cases b
    simp_all
  apply hc
  · rw [matRestoreFold_color, matRestoreFold_color]
    cases hl : rs.getLast? with
    | none => simp [hl]
    | some r => simp [hl]
  · simp [matRestoreFold_roughness]
  · simp [matRestoreFold_metalness]
  · rw [matRestoreFold_map, matRestoreFold_map]
    cases hl : lastTruthy rs with
    | none => simp [hl]
    | some u => simp [hl]

theorem restoreMaterials_getElem? (ms : List SavedMaterial) :
    ∀ (sc : Scene) (i : Nat),
      (restoreMaterials sc ms)[i]? =
        (sc[i]?).map (fun m => Mesh.mk m.name m.uuid (matRestoreFold m.material
          (ms.filter (fun r => firstIdx (fun x => x.name == r.name) sc == some i)))) := by
  induction ms with
  | nil =>
    intro sc i
    show sc[i]? = _
    cases sc[i]? with
    | none => rfl
    | some m => rfl
  | cons r rest ih =>
    intro sc i
    show (restoreMaterials (restoreOne sc r) rest)[i]? = _
    rw [ih (restoreOne sc r) i]
    have hfilter : ∀ rs : List SavedMaterial,
        rs.filter (fun q => firstIdx (fun x => x.name == q.name) (restoreOne sc r) == some i)
          = rs.filter (fun q => firstIdx (fun x => x.name == q.name) sc == some i) := by
      intro rs
      apply List.filter_congr
      intro q _
      rw [firstIdx_restoreOne sc r _ (materialBlind_name q.name)]
    rw [hfilter]
    rw [restoreOne_eq_update]
    rw [getElem?_updateMaterialFirst]
    cases hidx : firstIdx (fun m => m.name == r.name) sc with
    | none =>
      have hpred : (firstIdx (fun x => x.name == r.name) sc == some i) = false := by
        rw [hidx]
        rfl
      rw [List.filter_cons]
      rw [hpred]
      simp only [Bool.false_eq_true, if_false]
    | some j =>
      by_cases hij : i = j
      · subst hij
        have hpred : (firstIdx (fun x => x.name == r.name) sc == some i) = true := by
          rw [hidx]
          simp
        rw [List.filter_cons, hpred]
        simp only [if_pos rfl, if_true]
        cases hsc : sc[i]? with
        | none => rfl
        | some m =>
          simp only [Option.map_some']
          rw [matRestoreFold_cons]
      · have hpred : (firstIdx (fun x => x.name == r.name) sc == some i) = false := by
          rw [hidx]
          simp [Ne.symm hij]
        rw [List.filter_cons, hpred]
        simp only [Bool.false_eq_true, if_false, if_neg hij]

theorem restoreMaterials_idem (sc : Scene) (ms : List SavedMaterial) :
    restoreMaterials (restoreMaterials sc ms) ms = restoreMaterials sc ms := by
  apply List.ext_getElem?
  intro i
  rw [restoreMaterials_getElem? ms (restoreMaterials sc ms) i]
  have hfilter :
      ms.filter (fun q => firstIdx (fun x => x.name == q.name) (restoreMaterials sc ms) == some i)
        = ms.filter (fun q => firstIdx (fun x => x.name == q.name) sc == some i) := by
    apply List.filter_congr
    intro q _
    rw [firstIdx_restoreMaterials ms sc _ (materialBlind_name q.name)]
  rw [hfilter]
  rw [restoreMaterials_getElem? ms sc i]
  cases hsc : sc[i]? with
  | none => rfl
  | some m =>
    simp only [Option.map_some']
    simp [matRestoreFold_idem]

theorem loadRestore_of_no_uuid (ms : List SavedMaterial) :
    ∀ sc : Scene, (∀ r ∈ ms, r.uuid = none) → loadRestore sc ms = sc := by
  induction ms with
  | nil => intro sc _; rfl
  | cons r rest ih =>
    intro sc h
    show loadRestore (loadRestoreOne sc r) rest = sc
    have hr : r.uuid = none := h r (List.mem_cons_self r rest)
    have : loadRestoreOne sc r = sc := by
      unfold loadRestoreOne
      rw [hr]
    rw [this]
    exact ih sc (fun q hq => h q (List.mem_cons_of_mem r hq))

/-- C2: for every persisted `modelState` document (whose entries, written by
`collectMaterialStates`, carry no `uuid` field) and every scene, the final
material state is the same whichever of the two asynchronous completions —
scene graph ready, `loadFromIndexedDB` timeout with the fetched
document — happens second, and applying the scene-triggered restoration
twice yields the same scene as applying it once (restoration is a pure
per-name overwrite). -/
theorem restoration_order_independent_and_idempotent (sc : Scene) (ms : List SavedMaterial)
    (hpersist : ∀ r ∈ ms, r.uuid = none) :
    coordRun (some ms) none [.graphReady sc, .timeoutFired]
        = coordRun (some ms) none [.timeoutFired, .graphReady sc]
    ∧ restoreMaterials (restoreMaterials sc ms) ms = restoreMaterials sc ms := by
  constructor
  · show coordStep (some ms) (coordStep (some ms) none (.graphReady sc)) .timeoutFired
        = coordStep (some ms) (coordStep (some ms) none .timeoutFired) (.graphReady sc)
    simp only [coordStep]
    rw [loadRestore_of_no_uuid ms (restoreMaterials sc ms) hpersist]
  · exact restoreMaterials_idem sc ms

/-- Witness for C2 at a concrete scene and persisted document. -/
theorem restoration_order_independent_and_idempotent_witness :
    coordRun (some [{ name := "a", color := 7, textureDataURL := none }]) none
        [.graphReady [⟨"a", "u1", ⟨1, 1, 1, none⟩⟩], .timeoutFired]
      = coordRun (some [{ name := "a", color := 7, textureDataURL := none }]) none
        [.timeoutFired, .graphReady [⟨"a", "u1", ⟨1, 1, 1, none⟩⟩]]
    ∧ restoreMaterials
        (restoreMaterials [⟨"a", "u1", ⟨1, 1, 1, none⟩⟩]
          [{ name := "a", color := 7, textureDataURL := none }])
        [{ name := "a", color := 7, textureDataURL := none }]
      = restoreMaterials [⟨"a", "u1", ⟨1, 1, 1, none⟩⟩]
          [{ name := "a", color := 7, textureDataURL := none }] :=
  restoration_order_independent_and_idempotent [⟨"a", "u1", ⟨1, 1, 1, none⟩⟩]
    [{ name := "a", color := 7, textureDataURL := none }] (by decide)

theorem skeleton_editScene (sc : Scene) (e : EditSpec) :
    skeleton (editScene sc e) = skeleton sc :=
  skeleton_updateMaterialFirst sc _ _

theorem skeleton_editsScene (edits : List EditSpec) :
    ∀ sc : Scene, skeleton (editsScene sc edits) = skeleton sc := by
  induction edits with
  | nil => intro sc; rfl
  | cons e es ih =>
    intro sc
    show skeleton (editsScene (editScene sc e) es) = skeleton sc
    rw [ih (editScene sc e), skeleton_editScene]

theorem getObjectByUuid_skeleton_congr (sc sc' : Scene) (h : skeleton sc = skeleton sc')
    (u : String) :
    Option.map (fun m => (m.name, m.uuid)) (getObjectByUuid sc u)
      = Option.map (fun m => (m.name, m.uuid)) (getObjectByUuid sc' u) :=
  find?_skeleton_congr (fun km => km.2 == u) sc sc' h

theorem getObjectByUuid_of_mem (sc : Scene) (m : Mesh)
    (hnd : (sc.map Mesh.uuid).Nodup) (hm : m ∈ sc) :
    getObjectByUuid sc m.uuid = some m :=
  find?_eq_of_mem_nodup Mesh.uuid sc m hnd hm

theorem getObjectByName_of_mem (sc : Scene) (m : Mesh)
    (hnd : (sc.map Mesh.name).Nodup) (hm : m ∈ sc) :
    getObjectByName sc m.name = some m :=
  find?_eq_of_mem_nodup Mesh.name sc m hnd hm

theorem getObjectByUuid_editScene_self (sc : Scene) (e : EditSpec) (t : Mesh)
    (hfind : getObjectByUuid sc e.uuid = some t) :
    getObjectByUuid (editScene sc e) e.uuid = some { t with material := e.newMat } := by
  have h := find?_updateMaterialFirst_self sc (fun m => m.uuid == e.uuid) (fun _ => e.newMat)
    (materialBlind_uuid e.uuid)
  show (updateMaterialFirst sc _ _).find? _ = _
  rw [h]
  show Option.map _ (getObjectByUuid sc e.uuid) = _
  rw [hfind]
  rfl

theorem map_name_editScene (sc : Scene) (e : EditSpec) :
    (editScene sc e).map Mesh.name = sc.map Mesh.name :=
  map_name_updateMaterialFirst sc _ _

theorem map_uuid_editScene (sc : Scene) (e : EditSpec) :
    (editScene sc e).map Mesh.uuid = sc.map Mesh.uuid :=
  map_uuid_updateMaterialFirst sc _ _

theorem goodScene_editScene (sc : Scene) (e : EditSpec) (hg : GoodScene sc)
    (hfa : faithfulMat e.newMat) : GoodScene (editScene sc e) := by
  obtain ⟨h1, h2, h3⟩ := hg
  refine ⟨by rw [map_name_editScene]; exact h1, by rw [map_uuid_editScene]; exact h2, ?_⟩
  intro m hm
  rcases mem_updateMaterialFirst sc _ _ m hm with hmem | ⟨m0, _, rfl⟩
  · exact h3 m hmem
  · exact hfa

theorem goodEdits_editScene (sc : Scene) (e : EditSpec) (es : List EditSpec)
    (he : GoodEdits sc es) : GoodEdits (editScene sc e) es := by
  intro e' he'
  obtain ⟨hsome, hfa⟩ := he e' he'
  refine ⟨?_, hfa⟩
  have h := getObjectByUuid_skeleton_congr (editScene sc e) sc (skeleton_editScene sc e) e'.uuid
  have hiso : (getObjectByUuid (editScene sc e) e'.uuid).isSome
      = (getObjectByUuid sc e'.uuid).isSome := by
    cases h1 : getObjectByUuid (editScene sc e) e'.uuid <;>
      cases h2 : getObjectByUuid sc e'.uuid <;> rw [h1, h2] at h <;> simp_all
  rw [hiso]
  exact hsome

theorem capOf_congr (sc sc' : Scene) (h : skeleton sc = skeleton sc') (e : EditSpec) :
    capOf sc e = capOf sc' e := by
  have hcong := getObjectByUuid_skeleton_congr sc sc' h e.uuid
  unfold capOf
  cases h1 : getObjectByUuid sc e.uuid with
  | none =>
    cases h2 : getObjectByUuid sc' e.uuid with
    | none => rfl
    | some t' => rw [h1, h2] at hcong; simp at hcong
  | some t =>
    cases h2 : getObjectByUuid sc' e.uuid with
    | none => rw [h1, h2] at hcong; simp at hcong
    | some t' =>
      rw [h1, h2] at hcong
      simp only [Option.map_some', Option.some.injEq, Prod.mk.injEq] at hcong
      obtain ⟨hname, huuid⟩ := hcong
      simp [serializeMaterial, hname, huuid]

theorem applyEdit_eq (sc : Scene) (e : EditSpec) (t : Mesh) (u r : List Entry)
    (hfind : getObjectByUuid sc e.uuid = some t) :
    applyEdit ⟨some sc, u, r⟩ e
      = ⟨some (editScene sc e), pushEvict u (entryOf sc e), []⟩ := by
  simp [applyEdit, hfind, pushUndoMesh, entryOf]

theorem undo_edit_step (sc : Scene) (e : EditSpec) (t : Mesh) (h r : List Entry)
    (hfind : getObjectByUuid sc e.uuid = some t)
    (hnames : (sc.map Mesh.name).Nodup)
    (hfa : faithfulMat t.material) :
    undo ⟨some (editScene sc e), h ++ [entryOf sc e], r⟩ = ⟨some sc, h, r ++ [capOf sc e]⟩ := by
  have hfind2 : List.find? (fun m => m.uuid == e.uuid) sc = some t := hfind
  have hbeq := @List.find?_some Mesh (fun m => m.uuid == e.uuid) t sc hfind2
  have htu : t.uuid = e.uuid := eq_of_beq hbeq
  have hfind' : getObjectByUuid (editScene sc e) e.uuid
      = some { t with material := e.newMat } := getObjectByUuid_editScene_self sc e t hfind
  have ht'mem : { t with material := e.newMat } ∈ editScene sc e :=
    List.mem_of_find?_eq_some hfind'
  have hnames' : ((editScene sc e).map Mesh.name).Nodup := by
    rw [map_name_editScene]; exact hnames
  have hlookupName : getObjectByName (editScene sc e) t.name
      = some { t with material := e.newMat } :=
    getObjectByName_of_mem (editScene sc e) _ hnames' ht'mem
  have hscene : deserializeMaterial (editScene sc e)
      (serializeMaterial t e.preset (captureTexture t.material)) = sc := by
    unfold deserializeMaterial
    simp only [serializeMaterial, htu, hfind']
    show updateMaterialFirst (editScene sc e) (fun m => m.uuid == e.uuid)
        (fun _ => snapshotMaterial (serializeMaterial t e.preset (captureTexture t.material))) = sc
    rw [show editScene sc e
        = updateMaterialFirst sc (fun m => m.uuid == e.uuid) (fun _ => e.newMat) from rfl]
    rw [updateMaterialFirst_const_const sc _ (materialBlind_uuid e.uuid)]
    rw [snapshotMaterial_serializeMaterial t e.preset hfa]
    exact updateMaterialFirst_restore sc _ t hfind
  simp only [undo, entryOf, hfind, List.getLast?_concat, hlookupName, List.dropLast_concat]
  rw [hscene]
  simp [capOf, hfind]

theorem redo_edit_step (sc : Scene) (e : EditSpec) (t : Mesh) (u r : List Entry)
    (hfind : getObjectByUuid sc e.uuid = some t)
    (hnames : (sc.map Mesh.name).Nodup)
    (hfaN : faithfulMat e.newMat) :
    redo ⟨some sc, u, r ++ [capOf sc e]⟩ = ⟨some (editScene sc e), u ++ [backOf sc e], r⟩ := by
  have hfind2 : List.find? (fun m => m.uuid == e.uuid) sc = some t := hfind
  have hbeq := @List.find?_some Mesh (fun m => m.uuid == e.uuid) t sc hfind2
  have htu : t.uuid = e.uuid := eq_of_beq hbeq
  have htmem : t ∈ sc := List.mem_of_find?_eq_some hfind
  have hlookupName : getObjectByName sc t.name = some t :=
    getObjectByName_of_mem sc t hnames htmem
  have hscene : deserializeMaterial sc
      (serializeMaterial { t with material := e.newMat } "custom" (captureTexture e.newMat))
        = editScene sc e := by
    unfold deserializeMaterial
    simp only [serializeMaterial, htu, hfind]
    show updateMaterialFirst sc (fun m => m.uuid == e.uuid)
        (fun _ => snapshotMaterial (serializeMaterial { t with material := e.newMat } "custom"
          (captureTexture e.newMat))) = editScene sc e
    rw [show captureTexture e.newMat
        = captureTexture ({ t with material := e.newMat } : Mesh).material from rfl]
    rw [snapshotMaterial_serializeMaterial { t with material := e.newMat } "custom" hfaN]
    rfl
  simp only [redo, capOf, hfind, List.getLast?_concat, hlookupName, List.dropLast_concat]
  rw [hscene]
  simp [backOf, hfind]

theorem entriesList_length (edits : List EditSpec) :
    ∀ sc : Scene, (entriesList sc edits).length = edits.length := by
  induction edits with
  | nil => intro sc; rfl
  | cons e es ih =>
    intro sc
    show (entryOf sc e :: entriesList (editScene sc e) es).length = es.length + 1
    rw [List.length_cons, ih (editScene sc e)]

theorem runEdits_shape (edits : List EditSpec) :
    ∀ (sc : Scene) (u r : List Entry), GoodScene sc → GoodEdits sc edits →
      ∃ r', runEdits ⟨some sc, u, r⟩ edits
        = ⟨some (editsScene sc edits), List.foldl pushEvict u (entriesList sc edits), r'⟩ := by
  induction edits with
  | nil =>
    intro sc u r _ _
    exact ⟨r, rfl⟩
  | cons e es ih =>
    intro sc u r hg he
    obtain ⟨hsome, hfa⟩ := he e (List.mem_cons_self e es)
    obtain ⟨t, hfind⟩ := Option.isSome_iff_exists.mp hsome
    have hstep : runEdits ⟨some sc, u, r⟩ (e :: es)
        = runEdits ⟨some (editScene sc e), pushEvict u (entryOf sc e), []⟩ es := by
      show runEdits (applyEdit ⟨some sc, u, r⟩ e) es = _
      rw [applyEdit_eq sc e t u r hfind]
    rw [hstep]
    obtain ⟨r', hr'⟩ := ih (editScene sc e) (pushEvict u (entryOf sc e)) []
      (goodScene_editScene sc e hg hfa)
      (goodEdits_editScene sc e es (fun e' he' => he e' (List.mem_cons_of_mem e he')))
    exact ⟨r', hr'⟩

theorem foldPush_shape (es : List Entry) (u : List Entry) (hk : es.length ≤ MAX_HISTORY) :
    ∃ h, List.foldl pushEvict u es = h ++ es := by
  induction es using List.reverseRecOn with
  | nil => exact ⟨u, by simp⟩
  | append_singleton es' e ih =>
    have hk' : es'.length ≤ MAX_HISTORY := by
      rw [List.length_append, List.length_cons, List.length_nil] at hk
      omega
    obtain ⟨h', hh'⟩ := ih hk'
    rw [List.foldl_append, hh']
    simp only [List.foldl_cons, List.foldl_nil, pushEvict]
    split
    · rename_i hcond
      simp only [List.length_append, List.length_cons, List.length_nil] at hcond hk
      cases h' with
      | nil =>
        exfalso
        simp at hcond
        omega
      | cons a h'' =>
        refine ⟨h'', ?_⟩
        simp
    · exact ⟨h', by simp⟩

theorem undo_phase (edits : List EditSpec) :
    ∀ (sc : Scene) (h r : List Entry), GoodScene sc → GoodEdits sc edits →
      undo^[edits.length] ⟨some (editsScene sc edits), h ++ entriesList sc edits, r⟩
        = ⟨some sc, h, r ++ (edits.map (capOf sc)).reverse⟩ := by
  induction edits with
  | nil =>
    intro sc h r _ _
    simp only [List.length_nil, Function.iterate_zero, id_eq, entriesList, List.append_nil,
      List.map_nil, List.reverse_nil]
    rfl
  | cons e es ih =>
    intro sc h r hg he
    obtain ⟨hsome, hfa⟩ := he e (List.mem_cons_self e es)
    obtain ⟨t, hfind⟩ := Option.isSome_iff_exists.mp hsome
    have hgood' : GoodScene (editScene sc e) := goodScene_editScene sc e hg hfa
    have hedits' : GoodEdits (editScene sc e) es :=
      goodEdits_editScene sc e es (fun e' he' => he e' (List.mem_cons_of_mem e he'))
    have hlen : (e :: es).length = es.length + 1 := rfl
    rw [hlen, Function.iterate_succ_apply']
    have hshape :
        (⟨some (editsScene sc (e :: es)), h ++ entriesList sc (e :: es), r⟩ : EditorState)
          = ⟨some (editsScene (editScene sc e) es),
              (h ++ [entryOf sc e]) ++ entriesList (editScene sc e) es, r⟩ := by
      show (⟨some (editsScene (editScene sc e) es),
          h ++ (entryOf sc e :: entriesList (editScene sc e) es), r⟩ : EditorState) = _
      rw [List.append_cons]
    rw [hshape]
    rw [ih (editScene sc e) (h ++ [entryOf sc e]) r hgood' hedits']
    have hstep := undo_edit_step sc e t h (r ++ (es.map (capOf (editScene sc e))).reverse)
      hfind hg.1 (hg.2.2 t (List.mem_of_find?_eq_some hfind))
    rw [hstep]
    have hcaps : es.map (capOf (editScene sc e)) = es.map (capOf sc) :=
      List.map_congr_left (fun e' _ => capOf_congr (editScene sc e) sc (skeleton_editScene sc e) e')
    rw [hcaps]
    rw [List.map_cons, List.reverse_cons, ← List.append_assoc]

theorem redo_phase (edits : List EditSpec) :
    ∀ (sc : Scene) (u r : List Entry), GoodScene sc → GoodEdits sc edits →
      ∃ backs, redo^[edits.length] ⟨some sc, u, r ++ (edits.map (capOf sc)).reverse⟩
        = ⟨some (editsScene sc edits), u ++ backs, r⟩ := by
  induction edits with
  | nil =>
    intro sc u r _ _
    refine ⟨[], ?_⟩
    simp only [List.length_nil, Function.iterate_zero, id_eq, List.map_nil, List.reverse_nil,
      List.append_nil]
    rfl
  | cons e es ih =>
    intro sc u r hg he
    obtain ⟨hsome, hfa⟩ := he e (List.mem_cons_self e es)
    obtain ⟨t, hfind⟩ := Option.isSome_iff_exists.mp hsome
    have hlen : (e :: es).length = es.length + 1 := rfl
    rw [hlen, Function.iterate_succ_apply]
    have hshape :
        (⟨some sc, u, r ++ ((e :: es).map (capOf sc)).reverse⟩ : EditorState)
          = ⟨some sc, u, (r ++ (es.map (capOf sc)).reverse) ++ [capOf sc e]⟩ := by
      rw [List.map_cons, List.reverse_cons, ← List.append_assoc]
    rw [hshape]
    rw [redo_edit_step sc e t u (r ++ (es.map (capOf sc)).reverse) hfind hg.1 hfa]
    have hcaps : es.map (capOf sc) = es.map (capOf (editScene sc e)) :=
      List.map_congr_left (fun e' _ =>
        capOf_congr sc (editScene sc e) (skeleton_editScene sc e).symm e')
    rw [hcaps]
    obtain ⟨backs', hb⟩ := ih (editScene sc e) (u ++ [backOf sc e]) r
      (goodScene_editScene sc e hg hfa)
      (goodEdits_editScene sc e es (fun e' he' => he e' (List.mem_cons_of_mem e he')))
    refine ⟨backOf sc e :: backs', ?_⟩
    rw [hb]
    simp only [List.append_assoc, List.singleton_append, List.nil_append]
    rfl

/-- C1 (amended): for every sequence of at most twenty edits on a
well-formed scene (unique names and uuids) whose pre-edit and post-edit
material states are representable by the snapshot codec (nonzero roughness
and metalness, no empty texture payload), k undos return every object to
its pre-first-edit state and k further redos return every object to its
post-last-edit state.  Without the representability hypothesis the law
fails: the `|| 0.5` defaults of `serializeMaterial`/`deserializeMaterial`
turn a roughness or metalness of `0` into `0.5` on the way back (see the
counterexample). -/
theorem undo_redo_round_trip (sc : Scene) (edits : List EditSpec) (u r : List Entry)
    (hg : GoodScene sc) (he : GoodEdits sc edits) (hk : edits.length ≤ MAX_HISTORY) :
    (runEdits ⟨some sc, u, r⟩ edits).scene = some (editsScene sc edits)
    ∧ (undo^[edits.length] (runEdits ⟨some sc, u, r⟩ edits)).scene = some sc
    ∧ (redo^[edits.length] (undo^[edits.length] (runEdits ⟨some sc, u, r⟩ edits))).scene
        = some (editsScene sc edits) := by
  obtain ⟨r', hrun⟩ := runEdits_shape edits sc u r hg he
  obtain ⟨h0, hfold⟩ := foldPush_shape (entriesList sc edits) u
    (by rw [entriesList_length]; exact hk)
  rw [hrun, hfold]
  rw [undo_phase edits sc h0 r' hg he]
  obtain ⟨backs, hredo⟩ := redo_phase edits sc h0 r' hg he
  rw [hredo]
  exact ⟨rfl, rfl, rfl⟩

/-- Witness for C1's amended theorem: one edit on a one-mesh scene, undone
and redone. -/
theorem undo_redo_round_trip_witness :
    (runEdits ⟨some [⟨"part_0", "u0", ⟨0, 1, 1, none⟩⟩], [], []⟩
        [⟨"u0", "custom", ⟨255, 1, 1, none⟩⟩]).scene
      = some (editsScene [⟨"part_0", "u0", ⟨0, 1, 1, none⟩⟩] [⟨"u0", "custom", ⟨255, 1, 1, none⟩⟩])
    ∧ (undo^[1] (runEdits ⟨some [⟨"part_0", "u0", ⟨0, 1, 1, none⟩⟩], [], []⟩
        [⟨"u0", "custom", ⟨255, 1, 1, none⟩⟩])).scene
      = some [⟨"part_0", "u0", ⟨0, 1, 1, none⟩⟩]
    ∧ (redo^[1] (undo^[1] (runEdits ⟨some [⟨"part_0", "u0", ⟨0, 1, 1, none⟩⟩], [], []⟩
        [⟨"u0", "custom", ⟨255, 1, 1, none⟩⟩]))).scene
      = some (editsScene [⟨"part_0", "u0", ⟨0, 1, 1, none⟩⟩]
          [⟨"u0", "custom", ⟨255, 1, 1, none⟩⟩]) :=
  undo_redo_round_trip [⟨"part_0", "u0", ⟨0, 1, 1, none⟩⟩]
    [⟨"u0", "custom", ⟨255, 1, 1, none⟩⟩] [] [] (by decide) (by decide) (by decide)

/-- Counterexample to C1 as stated: an object whose material has roughness
`0` (a perfectly smooth surface) is NOT returned to its pre-edit state by
undo — the `|| 0.5` defaults substitute `0.5` for its roughness. -/
theorem round_trip_cex_roughness_zero :
    (undo^[1] (runEdits ⟨some [⟨"part_0", "u0", ⟨0, 0, 1, none⟩⟩], [], []⟩
        [⟨"u0", "custom", ⟨255, 1, 1, none⟩⟩])).scene
      ≠ some [⟨"part_0", "u0", ⟨0, 0, 1, none⟩⟩] := by
  decide

/-- C8: undo operates on one global timeline ordered by edit time, not per
object: after an edit of one object and then an edit of another, the first
undo restores the second object's prior state (the scene returns to the
state after edit one only) and the second undo restores the first
object's prior state (the original scene).  The modelled `undo` (file
lines 679-694) reads only the popped entry's `meshName`, never the current
selection, so the result is independent of which object is selected. -/
theorem undo_uses_global_timeline (sc : Scene) (e0 e1 : EditSpec) (u r : List Entry)
    (hg : GoodScene sc) (he : GoodEdits sc [e0, e1]) :
    (undo^[1] (runEdits ⟨some sc, u, r⟩ [e0, e1])).scene = some (editScene sc e0)
    ∧ (undo^[2] (runEdits ⟨some sc, u, r⟩ [e0, e1])).scene = some sc := by
  obtain ⟨r', hrun⟩ := runEdits_shape [e0, e1] sc u r hg he
  obtain ⟨h0, hfold⟩ := foldPush_shape (entriesList sc [e0, e1]) u
    (by rw [entriesList_length]; simp [MAX_HISTORY])
  rw [hrun, hfold]
  have hg1 : GoodScene (editScene sc e0) :=
    goodScene_editScene sc e0 hg (he e0 (by simp)).2
  have he1 : GoodEdits (editScene sc e0) [e1] :=
    goodEdits_editScene sc e0 [e1] (fun e' he' => he e' (List.mem_cons_of_mem e0 he'))
  have hfirst :
      undo^[1] (⟨some (editsScene sc [e0, e1]), h0 ++ entriesList sc [e0, e1], r'⟩ : EditorState)
        = ⟨some (editScene sc e0), h0 ++ [entryOf sc e0],
            r' ++ ([e1].map (capOf (editScene sc e0))).reverse⟩ := by
    have hshape :
        (⟨some (editsScene sc [e0, e1]), h0 ++ entriesList sc [e0, e1], r'⟩ : EditorState)
          = ⟨some (editsScene (editScene sc e0) [e1]),
              (h0 ++ [entryOf sc e0]) ++ entriesList (editScene sc e0) [e1], r'⟩ := by
      show (⟨some (editsScene (editScene sc e0) [e1]),
          h0 ++ (entryOf sc e0 :: entriesList (editScene sc e0) [e1]), r'⟩ : EditorState) = _
      rw [List.append_cons]
    rw [hshape]
    exact undo_phase [e1] (editScene sc e0) (h0 ++ [entryOf sc e0]) r' hg1 he1
  constructor
  · rw [hfirst]
  · have h2 : undo^[2] (⟨some (editsScene sc [e0, e1]), h0 ++ entriesList sc [e0, e1], r'⟩ :
        EditorState)
        = undo^[1] (undo^[1] ⟨some (editsScene sc [e0, e1]), h0 ++ entriesList sc [e0, e1], r'⟩) :=
      Function.iterate_add_apply undo 1 1 _
    rw [h2, hfirst]
    have hsecond := undo_phase [e0] sc h0
      (r' ++ ([e1].map (capOf (editScene sc e0))).reverse) hg
      (fun e' he' => he e' (by
        have hmem := List.mem_singleton.mp he'
        rw [hmem]
        simp))
    have hsecond' : undo^[1] (⟨some (editScene sc e0), h0 ++ [entryOf sc e0],
          r' ++ ([e1].map (capOf (editScene sc e0))).reverse⟩ : EditorState)
        = ⟨some sc, h0, (r' ++ ([e1].map (capOf (editScene sc e0))).reverse)
            ++ ([e0].map (capOf sc)).reverse⟩ := hsecond
    rw [hsecond']

/-- Witness for C8 at the spec's scenario: `part_0` gets the "metal"
preset, `part_1` gets colour `0x00ff00`; the first undo restores
`part_1`'s prior state, the second restores `part_0`'s. -/
theorem undo_uses_global_timeline_witness :
    (undo^[1] (runEdits ⟨some [⟨"part_0", "u0", ⟨1, 1, 1, none⟩⟩, ⟨"part_1", "u1", ⟨2, 1, 1, none⟩⟩],
        [], []⟩
        [⟨"u0", "metal", ⟨13749979, 1, 1, none⟩⟩, ⟨"u1", "custom", ⟨65280, 1, 1, none⟩⟩])).scene
      = some (editScene [⟨"part_0", "u0", ⟨1, 1, 1, none⟩⟩, ⟨"part_1", "u1", ⟨2, 1, 1, none⟩⟩]
          ⟨"u0", "metal", ⟨13749979, 1, 1, none⟩⟩)
    ∧ (undo^[2] (runEdits ⟨some [⟨"part_0", "u0", ⟨1, 1, 1, none⟩⟩,
        ⟨"part_1", "u1", ⟨2, 1, 1, none⟩⟩], [], []⟩
        [⟨"u0", "metal", ⟨13749979, 1, 1, none⟩⟩, ⟨"u1", "custom", ⟨65280, 1, 1, none⟩⟩])).scene
      = some [⟨"part_0", "u0", ⟨1, 1, 1, none⟩⟩, ⟨"part_1", "u1", ⟨2, 1, 1, none⟩⟩] :=
  undo_uses_global_timeline
    [⟨"part_0", "u0", ⟨1, 1, 1, none⟩⟩, ⟨"part_1", "u1", ⟨2, 1, 1, none⟩⟩]
    ⟨"u0", "metal", ⟨13749979, 1, 1, none⟩⟩ ⟨"u1", "custom", ⟨65280, 1, 1, none⟩⟩ [] []
    (by decide) (by decide)

/-- Counterexample to C7 as stated: with one undo entry naming a missing
object, `undo` neither pops the entry nor pushes onto the redo stack. -/
theorem missing_target_entry_not_consumed_cex :
    ¬ ((undo { scene := some ([] : Scene)
               undoHistory := [⟨"ghost", ⟨"ghost", "u9", 1, "custom", none, 1, 1⟩⟩]
               redoHistory := [] }).undoHistory = []
      ∧ (undo { scene := some ([] : Scene)
                undoHistory := [⟨"ghost", ⟨"ghost", "u9", 1, "custom", none, 1, 1⟩⟩]
                redoHistory := [] }).redoHistory.length = 1) := by
  decide

end RenderTool
